import Mathlib

/-!
Verification development for the Skribblio bot (src/bot.js).

The file embeds, as Lean functions, the three algorithmic cores of the
program:

* `findSolutions` — the clue resolver (`Player.findSolutions`,
  src/bot.js lines 195-222), working over the serialized dictionary
  index `words.json` (a JS object keyed by sub-word count, then total
  letter count, modelled as nested association lists);
* `addWord` — the scored-mode word sink (`WordBank.addWord`,
  src/bot.js lines 24-38), modelled over a functional map;
* `waitLoop` / `waitForRoundFinishedOnce` / `waitForRoundFinishedMany` /
  `runRound` — the round-resolution polling loop
  (`Player.waitForRoundFinished`, src/bot.js lines 131-174) and the
  orchestrator step (`Game.run`, src/bot.js lines 293-302), with all
  page-driver reads abstracted into an observation environment
  (`RoundEnv`).

Clue strings are modelled as `List Char`; JS `String.prototype.charAt`
returning `''` out of range is modelled by `List.get?` returning `none`.
JS numbers holding counts are modelled as `Int` where they can become
negative (the correct-guess counter), `Nat` otherwise.
-/

/-- One record of the serialized dictionary (`{word, lens, letters}` in
`words.json`): the raw word, its per-sub-word lengths, and its letters
with separators stripped. -/
structure WordEntry where
  word : String
  lens : List Nat
  letters : List Char
deriving DecidableEq

/-- The dictionary index `sortedWords`: a JS object keyed first by
sub-word count, then by total letter count, with buckets of entries.
Modelled as nested association lists (JS objects are finite maps). -/
abbrev SortedWords := List (Nat × List (Nat × List WordEntry))

/-- JS `String.prototype.split` on a single-character class: split at
every character satisfying `p`, keeping empty pieces (so
`"".split` is `[""]` and a trailing separator yields a trailing empty
piece), exactly as JS does. -/
def jsSplit (p : Char → Bool) : List Char → List (List Char)
  | [] => [[]]
  | c :: rest =>
    if p c then [] :: jsSplit p rest
    else
      match jsSplit p rest with
      | [] => [[c]]
      | t :: ts => (c :: t) :: ts

/-- The ASCII part of the JS regex class `\s` (the clues scraped from
the page are ASCII; the unicode spaces that `\s` also matches never
occur in them). -/
def isJsWs (c : Char) : Bool :=
  c == ' ' || c == '\t' || c == '\n' || c == '\r' || c == '\x0b' || c == '\x0c'

/-- The character class of the regex `/[\s-]/` used in
`clue.split(/[\s-]/)`. -/
def isSepRe (c : Char) : Bool :=
  isJsWs c || c == '-'

/-- `clue.replaceAll(' ', '').replaceAll('-', '')`: strip spaces, then
strip hyphens. -/
def stripSeps (l : List Char) : List Char :=
  (l.filter (fun c => c != ' ')).filter (fun c => c != '-')

/-- The shape filter `guess.lens.every((e, i) => e === lens[i])`: JS
`every` ranges over the indices of `guess.lens`, and `lens[i]` is
`undefined` (never equal to a number) past the end of `lens`, so the
check is an element-wise comparison over the candidate's own indices. -/
def lensEvery : List Nat → List Nat → Bool
  | [], _ => true
  | _ :: _, [] => false
  | e :: es, l :: ls => e == l && lensEvery es ls

/-- The inner `while (clue.charAt(0) === '_')` loop of
`findSolutions`: drop leading placeholders, advancing `letterPos`. -/
def stripLoop : List Char → Nat → List Char × Nat
  | [], pos => ([], pos)
  | c :: rest, pos => if c = '_' then stripLoop rest (pos + 1) else (c :: rest, pos)

/-- The outer `while (clue.length !== 0)` loop of `findSolutions`:
strip leading placeholders, read the next revealed character (`''`,
i.e. `none`, when the rest of the clue was all placeholders), filter
the candidates on it when present, drop it, and continue. -/
def guessLoop (clue : List Char) (letterPos : Nat) (guesses : List WordEntry) :
    List WordEntry :=
  if hc : clue = [] then guesses
  else
    let rest := (stripLoop clue letterPos).1
    let pos := (stripLoop clue letterPos).2
    let guesses2 :=
      match rest with
      | [] => guesses
      | c :: _ => guesses.filter (fun g => g.letters.get? pos == some c)
    guessLoop rest.tail (pos + 1) guesses2
termination_by clue.length
decreasing_by
  have h1 : ∀ (l : List Char) (p : Nat), (stripLoop l p).1.length ≤ l.length := by
    intro l
    induction l with
    | nil => intro _p; simp [stripLoop]
    | cons c t ih =>
      intro p
      by_cases hc2 : c = '_'
      · simp only [stripLoop, if_pos hc2]
        exact Nat.le_trans (ih (p + 1)) (Nat.le_succ _)
      · simp [stripLoop, hc2]
  have h2 : 0 < clue.length := List.length_pos.mpr hc
  have h3 : (stripLoop clue letterPos).1.tail.length =
      (stripLoop clue letterPos).1.length - 1 := List.length_tail _
  have h4 := h1 clue letterPos
  omega

/-- `clue.split(' ').length` of `findSolutions`. -/
def numWordsOf (clue : List Char) : Nat :=
  (jsSplit (fun c => c == ' ') clue).length

/-- `clue.split(/[\s-]/).map(word => word.length)` of `findSolutions`. -/
def lensOf (clue : List Char) : List Nat :=
  (jsSplit isSepRe clue).map List.length

/-- The flattened clue (separators stripped). -/
def flatOf (clue : List Char) : List Char :=
  stripSeps clue

/-- The bucket lookup `sortedWords[numWords][clue.length]` (with
`clue` already flattened), `none` when either level is `undefined`. -/
def bucketOf (clue : List Char) (sw : SortedWords) : Option (List WordEntry) :=
  (sw.lookup (numWordsOf clue)).bind (fun inner => inner.lookup (flatOf clue).length)

/-- `Player.findSolutions` (src/bot.js lines 195-222): tokenize the
clue, look up the `(numWords, flattened length)` bucket, filter it by
the per-sub-word length check, then run the revealed-letter loop.
Returns `[]` when the bucket is absent. -/
def findSolutions (clue : List Char) (sw : SortedWords) : List WordEntry :=
  match bucketOf clue sw with
  | some gs => guessLoop (flatOf clue) 0 (gs.filter (fun g => lensEvery g.lens (lensOf clue)))
  | none => []

/-- Characterization predicate for the revealed-letter loop, read off
the claim: starting at flattened position `pos`, every non-placeholder
character of the remaining flattened clue must equal the candidate's
letter at that position, compared exactly (JS `===`). -/
def matchesCSFrom : List Char → Nat → WordEntry → Bool
  | [], _, _ => true
  | c :: rest, pos, g =>
    (if c = '_' then true else g.letters.get? pos == some c) && matchesCSFrom rest (pos + 1) g

/-- The same predicate with the comparison made case-insensitive, as
the claim words it (`toLower` on both sides). -/
def matchesCIFrom : List Char → Nat → WordEntry → Bool
  | [], _, _ => true
  | c :: rest, pos, g =>
    (if c = '_' then true
     else
       match g.letters.get? pos with
       | some d => d.toLower == c.toLower
       | none => false) && matchesCIFrom rest (pos + 1) g

/-- The flattened position of clue index `i`: the number of characters
before `i` that survive separator stripping. -/
def flatIdx (clue : List Char) (i : Nat) : Nat :=
  (stripSeps (clue.take i)).length

/-- The resolver as the claim words it for C3: identical pipeline, but
with the revealed-letter comparison made case-insensitive. -/
def resolveCI (clue : List Char) (sw : SortedWords) : List WordEntry :=
  match bucketOf clue sw with
  | some gs =>
      (gs.filter (fun g => lensEvery g.lens (lensOf clue))).filter
        (fun g => matchesCIFrom (flatOf clue) 0 g)
  | none => []

/-- A two-sub-word dictionary entry with sub-word lengths `[4, 4]`. -/
def e44 : WordEntry := ⟨"abcd efgh", [4, 4], "abcdefgh".toList⟩

/-- The invariant of the serialized dictionary (spec section 3): every
entry sits in the bucket determined by its own shape, so its sub-word
count matches the outer key and its total letter count the inner key. -/
def IndexWF (sw : SortedWords) : Prop :=
  ∀ p ∈ sw, ∀ q ∈ p.2, ∀ g ∈ q.2, g.lens.length = p.1 ∧ g.lens.sum = q.1

/-- A dictionary entry shaped `[3, 4]` with seven letters. -/
def e34 : WordEntry := ⟨"abc defg", [3, 4], "abcdefg".toList⟩

/-- A dictionary entry shaped `[3, 5]` with eight letters. -/
def e35 : WordEntry := ⟨"abc defgh", [3, 5], "abcdefgh".toList⟩

/-- The scored-mode per-word statistics record kept by `WordBank`
(field names as in src/bot.js, including the source's spellings). -/
structure WordRec where
  appearance : Int
  playersEncounterd : Int
  correctGusses : Int
deriving DecidableEq

/-- `WordBank.addWord` (src/bot.js lines 24-38): reject invalid stats,
otherwise initialise a missing record to zeros and add the observation
to the running totals. The bank (a JS object) is modelled as a
functional map from words to optional records. -/
def addWord (words : String → Option WordRec) (word : String)
    (numplayers correctGusses : Int) : String → Option WordRec :=
  if numplayers < 1 ∨ correctGusses < 0 ∨ numplayers < correctGusses then words
  else
    let cur : WordRec :=
      match words word with
      | none => ⟨0, 0, 0⟩
      | some r => r
    fun w =>
      if w = word then
        some ⟨cur.appearance + 1, cur.playersEncounterd + numplayers,
          cur.correctGusses + correctGusses⟩
      else words w

/-- The per-round observation environment: what the page driver would
report at each poll. `word0` is the reveal text read before the loop;
`wordAt t`, `clueAt t` and `guessedAt t` are the reveal text, unwrapped
clue, and count of players marked `.guessed`, read when the loop's
timer has just been advanced to `t` milliseconds; `playersAfter` is the
`.player` element count read after the loop. -/
structure RoundEnv where
  word0 : String
  wordAt : Nat → String
  clueAt : Nat → List Char
  guessedAt : Nat → Nat
  playersAfter : Nat

/-- A round whose reveal text has already changed by the first poll
tick: every reveal read is `b` against `oldWord = a`, and every
guessed-count reading of the room is 5. -/
def envC9x : RoundEnv := ⟨"a", fun _ => "b", fun _ => [], fun _ => 5, 6⟩

/-- The state of `waitForRoundFinished`'s polling loop when it exits:
the timer, the last reveal text read, the `submitted` flag, the
`#correctGuesses` field, and the auto-submission batches started so far
(start timer paired with the solutions submitted). -/
structure LoopState where
  timer : Nat
  currentWord : String
  submitted : Bool
  correctGuesses : Int
  batches : List (Nat × List WordEntry)
deriving DecidableEq

/-- The `timer % 2000 === 0` block of the loop (src/bot.js lines
143-158): at a clue tick, read the clue; if it differs from the `clue`
variable (which the source never updates, so it stays `''`) and no
batch was submitted yet, resolve it and, when 1-7 candidates remain,
start a submission batch (modelled as appending the batch to the event
list) and set `submitted`. -/
def clueStep (env : RoundEnv) (sw : SortedWords) (clue : List Char) (submitted : Bool)
    (batches : List (Nat × List WordEntry)) (timer2 : Nat) :
    Bool × List (Nat × List WordEntry) :=
  if timer2 % 2000 = 0 then
    let newClue := env.clueAt timer2
    if clue ≠ newClue ∧ submitted = false then
      let solutions := findSolutions newClue sw
      if 0 < solutions.length ∧ solutions.length ≤ 7 then
        (true, batches ++ [(timer2, solutions)])
      else (submitted, batches)
    else (submitted, batches)
  else (submitted, batches)

/-- The `while (currentWord === this.#oldWord && timer <= timeout)`
loop of `Player.waitForRoundFinished` (src/bot.js lines 140-163),
with `timeout = 85000`: advance the timer by 500, run the clue block at
2000 ms multiples, re-read the reveal text, and refresh the
correct-guess count only while the reveal text still equals
`oldWord`. -/
def waitLoop (env : RoundEnv) (sw : SortedWords) (oldWord : String) (timer : Nat)
    (currentWord : String) (clue : List Char) (submitted : Bool)
    (correctGuesses : Int) (batches : List (Nat × List WordEntry)) : LoopState :=
  if h : currentWord = oldWord ∧ timer ≤ 85000 then
    let timer2 := timer + 500
    let sb := clueStep env sw clue submitted batches timer2
    let currentWord2 := env.wordAt timer2
    let correct2 :=
      if currentWord2 = oldWord then (env.guessedAt timer2 : Int) else correctGuesses
    waitLoop env sw oldWord timer2 currentWord2 clue sb.1 correct2 sb.2
  else
    ⟨timer, currentWord, submitted, correctGuesses, batches⟩
termination_by 85500 - timer
decreasing_by
  obtain ⟨_h1, h2⟩ := h
  omega

/-- Failure modes of the round wait: the 85-second timeout throw, or
running past the modelled observation trace. -/
inductive WaitErr where
  | timedout
  | truncated
deriving DecidableEq

/-- What one completed `waitForRoundFinished` call leaves behind for
the orchestrator: the revealed word (`#oldWord`), `#playerCount`,
`#correctGuesses` (after the `submitted` decrement), the `submitted`
flag, and the batch events. -/
structure RoundOutcome where
  word : String
  playerCount : Int
  correctGusses : Int
  submitted : Bool
  batches : List (Nat × List WordEntry)
deriving DecidableEq

/-- One invocation of `Player.waitForRoundFinished` (src/bot.js lines
131-174), up to its trailing empty-word recursion: run the polling loop
from a fresh `timer = 0`, `clue = ''`, `submitted = false`; throw
`timedout` when the timer exceeded the timeout; otherwise snapshot
`#playerCount` as the `.player` count minus 2 and decrement the
correct-guess count when a batch was submitted. `cg0` is the value the
mutable `#correctGuesses` field holds on entry. -/
def waitForRoundFinishedOnce (env : RoundEnv) (sw : SortedWords) (oldWord : String)
    (cg0 : Int) : Except WaitErr RoundOutcome :=
  let st := waitLoop env sw oldWord 0 env.word0 [] false cg0 []
  if 85000 < st.timer then .error .timedout
  else
    .ok ⟨st.currentWord, (env.playersAfter : Int) - 2,
      if st.submitted then st.correctGuesses - 1 else st.correctGuesses,
      st.submitted, st.batches⟩

/-- `Player.waitForRoundFinished` including its self-recursion on an
empty revealed word (src/bot.js lines 170-172): each recursion runs
against the next observation environment with `oldWord = ''` and the
current `#correctGuesses`; the final (innermost) invocation's fields
are what the caller sees. `truncated` only arises when the modelled
trace runs out. -/
def waitForRoundFinishedMany : List RoundEnv → SortedWords → String → Int →
    Except WaitErr RoundOutcome
  | [], _, _, _ => .error .truncated
  | env :: rest, sw, oldWord, cg0 =>
    match waitForRoundFinishedOnce env sw oldWord cg0 with
    | .error e => .error e
    | .ok out =>
      if out.word = "" then waitForRoundFinishedMany rest sw "" out.correctGusses
      else .ok out

/-- One iteration of `Game.run`'s loop (src/bot.js lines 293-302):
wait for the round to finish, then record the revealed word with the
player and correct-guess snapshots. A thrown error propagates out of
`run` before `addWord` is reached, leaving the bank untouched. -/
def runRound (envs : List RoundEnv) (sw : SortedWords) (oldWord : String) (cg0 : Int)
    (bank : String → Option WordRec) :
    (String → Option WordRec) × Except WaitErr RoundOutcome :=
  match waitForRoundFinishedMany envs sw oldWord cg0 with
  | .error e => (bank, .error e)
  | .ok out => (addWord bank out.word out.playerCount out.correctGusses, .ok out)

theorem stripLoop_fst_length_le (l : List Char) (pos : Nat) :
    (stripLoop l pos).1.length ≤ l.length := by
  induction l generalizing pos with
  | nil => simp [stripLoop]
  | cons c rest ih =>
    by_cases hc : c = '_'
    · simp only [stripLoop, if_pos hc]
      exact Nat.le_trans (ih (pos + 1)) (Nat.le_succ _)
    · simp [stripLoop, hc]

theorem stripLoop_nil (pos : Nat) : stripLoop [] pos = ([], pos) := rfl

theorem stripLoop_underscore (rest : List Char) (pos : Nat) :
    stripLoop ('_' :: rest) pos = stripLoop rest (pos + 1) := by
  simp [stripLoop]

theorem stripLoop_other (c : Char) (hc : c ≠ '_') (rest : List Char) (pos : Nat) :
    stripLoop (c :: rest) pos = (c :: rest, pos) := by
  simp [stripLoop, hc]

theorem guessLoop_nil (pos : Nat) (gs : List WordEntry) : guessLoop [] pos gs = gs := by
  rw [guessLoop]
  simp

theorem guessLoop_underscore (rest : List Char) (pos : Nat) (gs : List WordEntry) :
    guessLoop ('_' :: rest) pos gs = guessLoop rest (pos + 1) gs := by
  cases rest with
  | nil =>
    rw [guessLoop_nil, guessLoop]
    simp only [reduceCtorEq, reduceDIte, stripLoop_underscore, stripLoop_nil, List.tail_nil]
    exact guessLoop_nil _ _
  | cons c cs =>
    rw [guessLoop]
    conv_rhs => rw [guessLoop]
    simp only [reduceCtorEq, reduceDIte, stripLoop_underscore]

theorem guessLoop_letter (c : Char) (hc : c ≠ '_') (rest : List Char) (pos : Nat)
    (gs : List WordEntry) :
    guessLoop (c :: rest) pos gs =
      guessLoop rest (pos + 1) (gs.filter (fun g => g.letters.get? pos == some c)) := by
  rw [guessLoop]
  simp only [reduceCtorEq, reduceDIte, stripLoop_other c hc, List.tail_cons]

theorem guessLoop_eq_filter (clue : List Char) (pos : Nat) (gs : List WordEntry) :
    guessLoop clue pos gs = gs.filter (fun g => matchesCSFrom clue pos g) := by
  induction clue generalizing pos gs with
  | nil => simp [guessLoop_nil, matchesCSFrom]
  | cons c rest ih =>
    by_cases hc : c = '_'
    · subst hc
      rw [guessLoop_underscore, ih]
      apply List.filter_congr
      intro g _
      simp [matchesCSFrom]
    · rw [guessLoop_letter c hc, ih, List.filter_filter]
      apply List.filter_congr
      intro g _
      simp [matchesCSFrom, hc, Bool.and_comm]

theorem keep_of_not_sep (c : Char) (hc : isSepRe c = false) :
    ((c != ' ') && (c != '-')) = true := by
  rw [isSepRe, isJsWs] at hc
  simp only [Bool.or_eq_false_iff] at hc
  simp [bne, hc.1.1, hc.2]

theorem filter_length_mono (p q : α → Bool) (l : List α)
    (h : ∀ a, q a = true → p a = true) :
    (l.filter q).length ≤ (l.filter p).length := by
  induction l with
  | nil => simp
  | cons a t ih =>
    by_cases hq : q a = true
    · simp [List.filter_cons, hq, h a hq]
      omega
    · simp only [Bool.not_eq_true] at hq
      by_cases hp : p a = true
      · simp [List.filter_cons, hq, hp]
        omega
      · simp only [Bool.not_eq_true] at hp
        simpa [List.filter_cons, hq, hp] using ih

theorem get?_lt_of_eq_some (l : List α) (n : Nat) (a : α) (h : l.get? n = some a) :
    n < l.length := by
  by_contra h2
  rw [List.get?_eq_none.mpr (Nat.le_of_not_lt h2)] at h
  exact Option.noConfusion h

theorem lookup_mem {β : Type} (l : List (Nat × β)) (k : Nat) (v : β)
    (h : l.lookup k = some v) : (k, v) ∈ l := by
  induction l with
  | nil => simp [List.lookup] at h
  | cons a t ih =>
    obtain ⟨k2, v2⟩ := a
    rw [List.lookup] at h
    by_cases hk : k == k2
    · rw [hk] at h
      injection h with h
      subst h
      rw [beq_iff_eq] at hk
      subst hk
      exact List.mem_cons_self _ _
    · simp only [Bool.not_eq_true] at hk
      rw [hk] at h
      exact List.mem_cons_of_mem _ (ih h)

theorem lensEvery_iff (a b : List Nat) : lensEvery a b = true ↔ ∃ t, b = a ++ t := by
  induction a generalizing b with
  | nil => simp [lensEvery]
  | cons e es ih =>
    cases b with
    | nil => simp [lensEvery]
    | cons l ls =>
      rw [lensEvery, Bool.and_eq_true, beq_iff_eq, ih]
      constructor
      · rintro ⟨rfl, t, rfl⟩
        exact ⟨t, rfl⟩
      · rintro ⟨t, ht⟩
        rw [List.cons_append] at ht
        injection ht with h1 h2
        exact ⟨h1.symm, t, h2⟩

theorem addWord_rejected (words : String → Option WordRec) (word : String)
    (numplayers correctGusses : Int)
    (h : numplayers < 1 ∨ correctGusses < 0 ∨ numplayers < correctGusses) :
    addWord words word numplayers correctGusses = words := by
  rw [addWord, if_pos h]

theorem addWord_valid (words : String → Option WordRec) (word : String)
    (numplayers correctGusses : Int)
    (h : ¬(numplayers < 1 ∨ correctGusses < 0 ∨ numplayers < correctGusses)) :
    (addWord words word numplayers correctGusses) word =
      some ⟨((words word).getD ⟨0, 0, 0⟩).appearance + 1,
        ((words word).getD ⟨0, 0, 0⟩).playersEncounterd + numplayers,
        ((words word).getD ⟨0, 0, 0⟩).correctGusses + correctGusses⟩ := by
  rw [addWord, if_neg h]
  simp only [if_pos rfl]
  cases words word <;> rfl

theorem waitLoop_continue (env : RoundEnv) (sw : SortedWords) (oldWord : String)
    (timer : Nat) (currentWord : String) (clue : List Char) (submitted : Bool)
    (cg : Int) (batches : List (Nat × List WordEntry))
    (h1 : currentWord = oldWord) (h2 : timer ≤ 85000) :
    waitLoop env sw oldWord timer currentWord clue submitted cg batches =
      waitLoop env sw oldWord (timer + 500) (env.wordAt (timer + 500)) clue
        (clueStep env sw clue submitted batches (timer + 500)).1
        (if env.wordAt (timer + 500) = oldWord then (env.guessedAt (timer + 500) : Int)
          else cg)
        (clueStep env sw clue submitted batches (timer + 500)).2 := by
  rw [waitLoop, dif_pos ⟨h1, h2⟩]

theorem waitLoop_exit (env : RoundEnv) (sw : SortedWords) (oldWord : String)
    (timer : Nat) (currentWord : String) (clue : List Char) (submitted : Bool)
    (cg : Int) (batches : List (Nat × List WordEntry))
    (h : ¬(currentWord = oldWord ∧ timer ≤ 85000)) :
    waitLoop env sw oldWord timer currentWord clue submitted cg batches =
      ⟨timer, currentWord, submitted, cg, batches⟩ := by
  rw [waitLoop, dif_neg h]

theorem clueStep_cases (env : RoundEnv) (sw : SortedWords) (clue : List Char)
    (submitted : Bool) (batches : List (Nat × List WordEntry)) (timer2 : Nat) :
    clueStep env sw clue submitted batches timer2 = (submitted, batches) ∨
      (submitted = false ∧ timer2 % 2000 = 0 ∧ clue ≠ env.clueAt timer2 ∧
        0 < (findSolutions (env.clueAt timer2) sw).length ∧
        (findSolutions (env.clueAt timer2) sw).length ≤ 7 ∧
        clueStep env sw clue submitted batches timer2 =
          (true, batches ++ [(timer2, findSolutions (env.clueAt timer2) sw)])) := by
  simp only [clueStep]
  split_ifs with h1 h2 h3
  · exact Or.inr ⟨h2.2, h1, h2.1, h3.1, h3.2, rfl⟩
  · exact Or.inl rfl
  · exact Or.inl rfl
  · exact Or.inl rfl

/-- The resolver, rewritten with the loop replaced by its filter
characterization: bucket lookup, sub-word length filter, then the
exact (case-sensitive) revealed-letter filter. -/
theorem findSolutions_eq_filter (clue : List Char) (sw : SortedWords) :
    findSolutions clue sw =
      match bucketOf clue sw with
      | some gs =>
          (gs.filter (fun g => lensEvery g.lens (lensOf clue))).filter
            (fun g => matchesCSFrom (flatOf clue) 0 g)
      | none => [] := by
  rw [findSolutions]
  cases bucketOf clue sw with
  | none => rfl
  | some gs => exact guessLoop_eq_filter (flatOf clue) 0 _

theorem matchesCSFrom_iff (flat : List Char) (pos : Nat) (g : WordEntry) :
    matchesCSFrom flat pos g = true ↔
      ∀ j c, flat.get? j = some c → c ≠ '_' → g.letters.get? (pos + j) = some c := by
  induction flat generalizing pos with
  | nil => simp [matchesCSFrom]
  | cons a rest ih =>
    simp only [matchesCSFrom, Bool.and_eq_true]
    constructor
    · rintro ⟨h1, h2⟩ j c hj hc
      cases j with
      | zero =>
        rw [List.get?_cons_zero] at hj
        injection hj with hj
        subst hj
        rw [if_neg hc] at h1
        simpa using beq_iff_eq.mp h1
      | succ j =>
        rw [List.get?_cons_succ] at hj
        have := (ih (pos + 1)).mp h2 j c hj hc
        rw [show pos + (j + 1) = pos + 1 + j by omega]
        exact this
    · intro h
      refine ⟨?_, (ih (pos + 1)).mpr ?_⟩
      · by_cases ha : a = '_'
        · simp [ha]
        · rw [if_neg ha]
          have := h 0 a (by simp) ha
          simpa using this
      · intro j c hj hc
        have := h (j + 1) c (by simpa using hj) hc
        rw [show pos + 1 + j = pos + (j + 1) by omega]
        exact this

theorem get?_set_self (l : List α) (i : Nat) (a : α) (h : i < l.length) :
    (l.set i a).get? i = some a := by
  induction l generalizing i with
  | nil => simp at h
  | cons b t ih =>
    cases i with
    | zero => simp
    | succ i => simpa using ih i (by simpa using h)

theorem get?_set_ne (l : List α) (i j : Nat) (a : α) (h : i ≠ j) :
    (l.set i a).get? j = l.get? j := by
  induction l generalizing i j with
  | nil => simp
  | cons b t ih =>
    cases i with
    | zero =>
      cases j with
      | zero => exact absurd rfl h
      | succ j => simp
    | succ i =>
      cases j with
      | zero => simp
      | succ j => simpa using ih i j (fun hij => h (by rw [hij]))

theorem filter_set_of_keep (p : α → Bool) (l : List α) (i : Nat) (d c : α)
    (hd : l.get? i = some d) (hkd : p d = true) (hkc : p c = true) :
    (l.set i c).filter p = ((l.filter p).set ((l.take i).filter p).length c) := by
  induction l generalizing i with
  | nil => simp at hd
  | cons a t ih =>
    cases i with
    | zero =>
      rw [List.get?_cons_zero] at hd
      injection hd with hd
      subst hd
      simp [List.filter_cons, hkd, hkc]
    | succ i =>
      rw [List.get?_cons_succ] at hd
      by_cases ha : p a = true
      · simp [List.filter_cons, ha, ih i hd]
      · simp only [Bool.not_eq_true] at ha
        simp [List.filter_cons, ha, ih i hd]

theorem get?_filter_at (p : α → Bool) (l : List α) (i : Nat) (d : α)
    (hd : l.get? i = some d) (hkd : p d = true) :
    (l.filter p).get? ((l.take i).filter p).length = some d := by
  induction l generalizing i with
  | nil => simp at hd
  | cons a t ih =>
    cases i with
    | zero =>
      rw [List.get?_cons_zero] at hd
      injection hd with hd
      subst hd
      simp [List.filter_cons, hkd]
    | succ i =>
      rw [List.get?_cons_succ] at hd
      by_cases ha : p a = true
      · simpa [List.filter_cons, ha] using ih i hd
      · simp only [Bool.not_eq_true] at ha
        simpa [List.filter_cons, ha] using ih i hd

theorem stripSeps_eq_filter (l : List Char) :
    stripSeps l = l.filter (fun c => (c != ' ') && (c != '-')) := by
  rw [stripSeps, List.filter_filter]
  exact List.filter_congr (fun c _ => by cases hc : c == ' ' <;> cases hc2 : c == '-' <;>
    simp [bne, hc, hc2])

theorem jsSplit_ne_nil (p : Char → Bool) (l : List Char) : jsSplit p l ≠ [] := by
  cases l with
  | nil => simp [jsSplit]
  | cons c rest =>
    rw [jsSplit]
    by_cases hc : p c
    · simp [hc]
    · simp only [Bool.not_eq_true] at hc
      simp only [hc, Bool.false_eq_true, if_false]
      cases h : jsSplit p rest <;> simp

theorem jsSplit_length (p : Char → Bool) (l : List Char) :
    (jsSplit p l).length = l.countP p + 1 := by
  induction l with
  | nil => simp [jsSplit]
  | cons c rest ih =>
    rw [jsSplit]
    by_cases hc : p c
    · simp [hc, List.countP_cons, ih]
    · simp only [Bool.not_eq_true] at hc
      cases h : jsSplit p rest with
      | nil => exact absurd h (jsSplit_ne_nil p rest)
      | cons t ts =>
        rw [h] at ih
        simp only [hc, Bool.false_eq_true, if_false, h, List.length_cons] at ih ⊢
        simp [List.countP_cons, hc]
        omega

theorem jsSplit_sum (p : Char → Bool) (l : List Char) :
    ((jsSplit p l).map List.length).sum = l.countP (fun c => !p c) := by
  induction l with
  | nil => simp [jsSplit]
  | cons c rest ih =>
    rw [jsSplit]
    by_cases hc : p c
    · simp [hc, List.countP_cons, ih]
    · simp only [Bool.not_eq_true] at hc
      cases h : jsSplit p rest with
      | nil => exact absurd h (jsSplit_ne_nil p rest)
      | cons t ts =>
        rw [h] at ih
        simp only [hc, Bool.false_eq_true, if_false, h, List.map_cons, List.sum_cons,
          List.length_cons] at ih ⊢
        simp [List.countP_cons, hc]
        omega

theorem jsSplit_set_shape (p : Char → Bool) (l : List Char) (d c : Char)
    (hd : p d = false) (hc : p c = false) :
    ∀ i, l.get? i = some d →
      (jsSplit p (l.set i c)).map List.length = (jsSplit p l).map List.length := by
  induction l with
  | nil => intro i hi; simp at hi
  | cons a t ih =>
    intro i hi
    cases i with
    | zero =>
      rw [List.get?_cons_zero] at hi
      injection hi with hi
      subst hi
      rw [List.set_cons_zero, jsSplit, jsSplit]
      cases h : jsSplit p t with
      | nil => exact absurd h (jsSplit_ne_nil p t)
      | cons t0 ts => simp [hd, hc, h]
    | succ i =>
      rw [List.get?_cons_succ] at hi
      rw [List.set_cons_succ, jsSplit, jsSplit]
      by_cases ha : p a
      · simp only [ha, if_true, List.map_cons]
        rw [ih i hi]
      · simp only [Bool.not_eq_true] at ha
        cases h1 : jsSplit p (t.set i c) with
        | nil => exact absurd h1 (jsSplit_ne_nil p _)
        | cons u0 us =>
          cases h2 : jsSplit p t with
          | nil => exact absurd h2 (jsSplit_ne_nil p t)
          | cons t0 ts =>
            have hmap := ih i hi
            rw [h1, h2] at hmap
            simp only [List.map_cons, List.cons.injEq] at hmap
            simp [ha, hmap.1, hmap.2]

/-- C3 counterexample: against the one-entry dictionary `abc`, the clue
`A__` (revealed letter upper-case) keeps the entry under the claim's
case-insensitive comparison but the code's `===` comparison eliminates
it, so the claim's characterization disagrees with `findSolutions`. -/
theorem c3_counterexample :
    resolveCI "A__".toList [(1, [(3, [⟨"abc", [3], "abc".toList⟩])])] =
        [⟨"abc", [3], "abc".toList⟩] ∧
      findSolutions "A__".toList [(1, [(3, [⟨"abc", [3], "abc".toList⟩])])] = [] := by
  refine ⟨by decide, ?_⟩
  rw [findSolutions_eq_filter]
  decide

/-- C3 (amended): the resolver keeps exactly those candidates of the
shape-filtered bucket whose letter at each revealed (non-placeholder)
flattened position equals the revealed character with an exact,
case-sensitive comparison; placeholders impose no constraint and only
advance the position counter (`matchesCSFrom`). -/
theorem c3_letter_filter_case_sensitive (clue : List Char) (sw : SortedWords) :
    findSolutions clue sw =
      match bucketOf clue sw with
      | some gs =>
          (gs.filter (fun g => lensEvery g.lens (lensOf clue))).filter
            (fun g => matchesCSFrom (flatOf clue) 0 g)
      | none => [] :=
  findSolutions_eq_filter clue sw

theorem matchesCSFrom_of_all_placeholder (flat : List Char) (pos : Nat) (g : WordEntry)
    (h : ∀ c ∈ flat, c = '_') : matchesCSFrom flat pos g = true := by
  induction flat generalizing pos with
  | nil => rfl
  | cons a rest ih =>
    have ha : a = '_' := h a (List.mem_cons_self a rest)
    simp only [matchesCSFrom, ha, if_pos rfl, Bool.true_and]
    exact ih (pos + 1) (fun c hc => h c (List.mem_cons_of_mem a hc))

/-- C4 counterexample: the all-placeholder clue `___ _____` selects the
bucket `(2, 8)`, which holds the `[4, 4]`-shaped entry, yet the
resolver returns the empty list: the sub-word length filter still
applies, so the result is not the whole bucket. -/
theorem c4_counterexample :
    bucketOf "___ _____".toList [(2, [(8, [e44])])] = some [e44] ∧
      (∀ c ∈ flatOf "___ _____".toList, c = '_') ∧
      findSolutions "___ _____".toList [(2, [(8, [e44])])] = [] := by
  refine ⟨by decide, by decide, ?_⟩
  rw [findSolutions_eq_filter]
  decide

/-- C4 (amended): for a clue with no revealed letters the resolver
returns exactly the entries of the shape bucket that pass the sub-word
length filter; no letter filtering is applied. -/
theorem c4_all_placeholder_bucket (clue : List Char) (sw : SortedWords)
    (h : ∀ c ∈ flatOf clue, c = '_') :
    findSolutions clue sw =
      match bucketOf clue sw with
      | some gs => gs.filter (fun g => lensEvery g.lens (lensOf clue))
      | none => [] := by
  rw [findSolutions_eq_filter]
  cases bucketOf clue sw with
  | none => rfl
  | some gs =>
    simp only
    rw [List.filter_congr
      (fun g _ => matchesCSFrom_of_all_placeholder (flatOf clue) 0 g h), List.filter_true]

/-- C4 witness: the amended statement applied to the `(2, 8)` bucket
scenario. -/
theorem c4_all_placeholder_bucket_witness :
    findSolutions "___ _____".toList [(2, [(8, [e44])])] =
      match bucketOf "___ _____".toList [(2, [(8, [e44])])] with
      | some gs => gs.filter (fun g => lensEvery g.lens (lensOf "___ _____".toList))
      | none => [] :=
  c4_all_placeholder_bucket "___ _____".toList [(2, [(8, [e44])])] (by decide)

/-- C5 counterexample: the clue `___ ____-` has token lengths
`[3, 4, 0]` (trailing hyphen, so a zero-length token), yet the resolver
returns the `[3, 4]`-shaped entry from the well-formed bucket `(2, 7)`:
a returned candidate whose per-sub-word length sequence does not equal
the clue's token lengths, contradicting the claim as stated. -/
theorem c5_counterexample :
    IndexWF [(2, [(7, [e34])])] ∧
      1 < (jsSplit isSepRe "___ ____-".toList).length ∧
      e34 ∈ findSolutions "___ ____-".toList [(2, [(7, [e34])])] ∧
      e34.lens ≠ lensOf "___ ____-".toList := by
  refine ⟨by unfold IndexWF; decide, by decide, ?_, by decide⟩
  rw [findSolutions_eq_filter]
  decide

/-- C6: starting from a bank with no record for the word, applying the
observations `(5, 3)` then `(4, 2)` yields the record
`{appearance := 2, playersEncounterd := 9, correctGusses := 5}`; and in
general a valid observation increments the appearance count and adds
the two counts to the running totals. -/
theorem c6_scored_accumulation (bank : String → Option WordRec) (w : String)
    (h : bank w = none) :
    (addWord (addWord bank w 5 3) w 4 2) w = some ⟨2, 9, 5⟩ ∧
      ∀ (bank2 : String → Option WordRec) (w2 : String) (np cg : Int),
        ¬(np < 1 ∨ cg < 0 ∨ np < cg) →
        (addWord bank2 w2 np cg) w2 =
          some ⟨((bank2 w2).getD ⟨0, 0, 0⟩).appearance + 1,
            ((bank2 w2).getD ⟨0, 0, 0⟩).playersEncounterd + np,
            ((bank2 w2).getD ⟨0, 0, 0⟩).correctGusses + cg⟩ := by
  refine ⟨?_, fun bank2 w2 np cg h2 => addWord_valid bank2 w2 np cg h2⟩
  have h1 : (addWord bank w 5 3) w = some ⟨1, 5, 3⟩ := by
    rw [addWord_valid bank w 5 3 (by omega), h]
    rfl
  rw [addWord_valid (addWord bank w 5 3) w 4 2 (by omega), h1]
  rfl

/-- C6 witness: the scenario run on the empty bank with the word
`apple`. -/
theorem c6_scored_accumulation_witness :
    (addWord (addWord (fun _ => none) "apple" 5 3) "apple" 4 2) "apple" =
        some ⟨2, 9, 5⟩ ∧
      ∀ (bank2 : String → Option WordRec) (w2 : String) (np cg : Int),
        ¬(np < 1 ∨ cg < 0 ∨ np < cg) →
        (addWord bank2 w2 np cg) w2 =
          some ⟨((bank2 w2).getD ⟨0, 0, 0⟩).appearance + 1,
            ((bank2 w2).getD ⟨0, 0, 0⟩).playersEncounterd + np,
            ((bank2 w2).getD ⟨0, 0, 0⟩).correctGusses + cg⟩ :=
  c6_scored_accumulation (fun _ => none) "apple" rfl

/-- C7: a stat pair with fewer than one player, a negative
correct-guess count, or more correct guesses than players leaves the
bank entirely unchanged. -/
theorem c7_invalid_stats_rejected (bank : String → Option WordRec) (w : String)
    (numplayers correctGusses : Int)
    (h : numplayers < 1 ∨ correctGusses < 0 ∨ numplayers < correctGusses) :
    addWord bank w numplayers correctGusses = bank :=
  addWord_rejected bank w numplayers correctGusses h

/-- C7 witness: a zero player count is rejected on the empty bank. -/
theorem c7_invalid_stats_rejected_witness :
    addWord (fun _ => none) "apple" 0 0 = (fun _ => none) :=
  c7_invalid_stats_rejected (fun _ => none) "apple" 0 0 (Or.inl (by omega))

/-- Trajectory of the polling loop for a round whose reveal text first
changes at tick `m` (or, when `m ≥ 172`, never changes inside the
timeout window): starting at tick `j` in a reachable state, the loop
exits at tick `min m 171` having read the reveal text there, and the
correct-guess field holds the guessed-count reading of the last tick at
which the reveal text still matched `oldWord` (the entry value when no
such tick lies ahead). -/
theorem waitLoop_resolve (env : RoundEnv) (sw : SortedWords) (oldWord : String) (m : Nat)
    (hm : 1 ≤ m) (h0 : env.word0 = oldWord)
    (hb : ∀ k, k < m → 1 ≤ k → env.wordAt (500 * k) = oldWord)
    (ha : m ≤ 171 → env.wordAt (500 * m) ≠ oldWord) :
    ∀ n j cw clue s cg b, n = min m 171 - j → j ≤ min m 171 →
      cw = (if j = 0 then env.word0 else env.wordAt (500 * j)) →
      (waitLoop env sw oldWord (500 * j) cw clue s cg b).timer = 500 * min m 171 ∧
      (waitLoop env sw oldWord (500 * j) cw clue s cg b).currentWord =
        env.wordAt (500 * min m 171) ∧
      (waitLoop env sw oldWord (500 * j) cw clue s cg b).correctGuesses =
        (if j < min (m - 1) 171 then (env.guessedAt (500 * min (m - 1) 171) : Int)
          else cg) := by
  intro n
  induction n with
  | zero =>
    intro j cw clue s cg b hn hj hcw
    have hjE : j = min m 171 := by omega
    have hcw2 : cw = env.wordAt (500 * j) := by
      rw [hcw, if_neg (by omega)]
    have hexit : ¬(cw = oldWord ∧ 500 * j ≤ 85000) := by
      rcases Nat.lt_or_ge m 172 with hlt | hge
      · intro hcon
        refine ha (by omega) ?_
        rw [show (500 : Nat) * m = 500 * j by omega, ← hcw2]
        exact hcon.1
      · intro hcon
        exact absurd hcon.2 (by omega)
    rw [waitLoop_exit env sw oldWord (500 * j) cw clue s cg b hexit]
    refine ⟨by rw [hjE], by rw [hcw2, hjE], ?_⟩
    rw [if_neg (by omega)]
  | succ n ih =>
    intro j cw clue s cg b hn hj hcw
    have hjE : j < min m 171 := by omega
    have hcwold : cw = oldWord := by
      rcases Nat.eq_zero_or_pos j with hj0 | hj1
      · subst hj0
        rw [hcw, if_pos rfl]
        exact h0
      · rw [hcw, if_neg (by omega)]
        exact hb j (by omega) hj1
    have htimer : 500 * j ≤ 85000 := by omega
    have hstep := waitLoop_continue env sw oldWord (500 * j) cw clue s cg b hcwold htimer
    have h500 : 500 * j + 500 = 500 * (j + 1) := by ring
    rw [h500] at hstep
    rw [hstep]
    have hcw2 : env.wordAt (500 * (j + 1)) =
        (if j + 1 = 0 then env.word0 else env.wordAt (500 * (j + 1))) := by simp
    have hih := ih (j + 1) (env.wordAt (500 * (j + 1))) clue
      (clueStep env sw clue s b (500 * (j + 1))).1
      (if env.wordAt (500 * (j + 1)) = oldWord then (env.guessedAt (500 * (j + 1)) : Int)
        else cg)
      (clueStep env sw clue s b (500 * (j + 1))).2
      (by omega) (by omega) hcw2
    refine ⟨hih.1, hih.2.1, ?_⟩
    rw [hih.2.2]
    by_cases hU1 : j + 1 < min (m - 1) 171
    · rw [if_pos hU1, if_pos (show j < min (m - 1) 171 by omega)]
    · by_cases hU2 : j + 1 = min (m - 1) 171
      · have hjU : j < min (m - 1) 171 := by omega
        rw [if_neg hU1, if_pos hjU]
        have hold : env.wordAt (500 * (j + 1)) = oldWord := by
          refine hb (j + 1) (by omega) (by omega)
        rw [if_pos hold, hU2]
      · have hjU : ¬j < min (m - 1) 171 := by omega
        rw [if_neg hU1, if_neg hjU]
        have hjm : j + 1 = m ∧ m ≤ 171 := by omega
        have hnold : env.wordAt (500 * (j + 1)) ≠ oldWord := by
          rw [hjm.1]
          exact ha hjm.2
        rw [if_neg hnold]

/-- Batches are only ever appended by the loop. -/
theorem waitLoop_batches_extend (env : RoundEnv) (sw : SortedWords) (oldWord : String) :
    ∀ n timer cw clue s cg b, n = 85500 - timer →
      ∃ t, (waitLoop env sw oldWord timer cw clue s cg b).batches = b ++ t := by
  intro n
  induction n using Nat.strong_induction_on with
  | _ n ih =>
    intro timer cw clue s cg b hn
    by_cases h : cw = oldWord ∧ timer ≤ 85000
    · rw [waitLoop_continue env sw oldWord timer cw clue s cg b h.1 h.2]
      rcases clueStep_cases env sw clue s b (timer + 500) with hcs | ⟨_, _, _, _, _, hcs⟩
      · rw [hcs]
        exact ih (85500 - (timer + 500)) (by omega) (timer + 500) (env.wordAt (timer + 500))
          clue s _ b rfl
      · rw [hcs]
        obtain ⟨t, ht⟩ := ih (85500 - (timer + 500)) (by omega) (timer + 500)
          (env.wordAt (timer + 500)) clue true _
          (b ++ [(timer + 500, findSolutions (env.clueAt (timer + 500)) sw)]) rfl
        exact ⟨(timer + 500, findSolutions (env.clueAt (timer + 500)) sw) :: t,
          by rw [ht, List.append_assoc]; rfl⟩
    · rw [waitLoop_exit env sw oldWord timer cw clue s cg b h]
      exact ⟨[], by simp⟩

/-- At most one batch is appended once `submitted` is accounted for. -/
theorem waitLoop_batches_count (env : RoundEnv) (sw : SortedWords) (oldWord : String) :
    ∀ n timer cw clue s cg b, n = 85500 - timer →
      ((waitLoop env sw oldWord timer cw clue s cg b).batches).length ≤
        b.length + (if s = true then 0 else 1) := by
  intro n
  induction n using Nat.strong_induction_on with
  | _ n ih =>
    intro timer cw clue s cg b hn
    by_cases h : cw = oldWord ∧ timer ≤ 85000
    · rw [waitLoop_continue env sw oldWord timer cw clue s cg b h.1 h.2]
      rcases clueStep_cases env sw clue s b (timer + 500) with hcs | ⟨hs, _, _, _, _, hcs⟩
      · rw [hcs]
        exact ih (85500 - (timer + 500)) (by omega) (timer + 500) (env.wordAt (timer + 500))
          clue s _ b rfl
      · rw [hcs]
        have := ih (85500 - (timer + 500)) (by omega) (timer + 500) (env.wordAt (timer + 500))
          clue true
          (if env.wordAt (timer + 500) = oldWord then (env.guessedAt (timer + 500) : Int)
            else cg)
          (b ++ [(timer + 500, findSolutions (env.clueAt (timer + 500)) sw)]) rfl
        subst hs
        simp at this
        simp only [Bool.false_eq_true, if_false]
        omega
    · rw [waitLoop_exit env sw oldWord timer cw clue s cg b h]
      by_cases hs : s = true <;> simp [hs]

/-- The `submitted` flag tracks batch nonemptiness. -/
theorem waitLoop_submitted_iff (env : RoundEnv) (sw : SortedWords) (oldWord : String) :
    ∀ n timer cw clue s cg b, n = 85500 - timer → (s = true ↔ b ≠ []) →
      ((waitLoop env sw oldWord timer cw clue s cg b).submitted = true ↔
        (waitLoop env sw oldWord timer cw clue s cg b).batches ≠ []) := by
  intro n
  induction n using Nat.strong_induction_on with
  | _ n ih =>
    intro timer cw clue s cg b hn hinv
    by_cases h : cw = oldWord ∧ timer ≤ 85000
    · rw [waitLoop_continue env sw oldWord timer cw clue s cg b h.1 h.2]
      rcases clueStep_cases env sw clue s b (timer + 500) with hcs | ⟨_, _, _, _, _, hcs⟩
      · rw [hcs]
        exact ih (85500 - (timer + 500)) (by omega) (timer + 500) (env.wordAt (timer + 500))
          clue s _ b rfl hinv
      · rw [hcs]
        exact ih (85500 - (timer + 500)) (by omega) (timer + 500) (env.wordAt (timer + 500))
          clue true _
          (b ++ [(timer + 500, findSolutions (env.clueAt (timer + 500)) sw)]) rfl
          (by simp)
    · rw [waitLoop_exit env sw oldWord timer cw clue s cg b h]
      exact hinv

theorem clueStep_fires (env : RoundEnv) (sw : SortedWords) (clue : List Char)
    (submitted : Bool) (batches : List (Nat × List WordEntry)) (timer2 : Nat)
    (h1 : timer2 % 2000 = 0) (h2 : clue ≠ env.clueAt timer2) (h3 : submitted = false)
    (h4 : 0 < (findSolutions (env.clueAt timer2) sw).length ∧
      (findSolutions (env.clueAt timer2) sw).length ≤ 7) :
    clueStep env sw clue submitted batches timer2 =
      (true, batches ++ [(timer2, findSolutions (env.clueAt timer2) sw)]) := by
  simp only [clueStep]
  rw [if_pos h1, if_pos ⟨h2, h3⟩, if_pos h4]

/-- Every batch the loop appends stems from a clue tick inside the
round's guessing window, records that tick's resolver output, and that
output had between 1 and 7 candidates. -/
theorem waitLoop_batches_mem (env : RoundEnv) (sw : SortedWords) (oldWord : String)
    (m : Nat) (hm : 1 ≤ m) (h0 : env.word0 = oldWord)
    (hb : ∀ k, k < m → 1 ≤ k → env.wordAt (500 * k) = oldWord)
    (ha : m ≤ 171 → env.wordAt (500 * m) ≠ oldWord) :
    ∀ n j cw clue s cg b, n = min m 171 - j → j ≤ min m 171 →
      cw = (if j = 0 then env.word0 else env.wordAt (500 * j)) →
      ∀ p ∈ (waitLoop env sw oldWord (500 * j) cw clue s cg b).batches,
        p ∈ b ∨ ∃ k, k % 4 = 0 ∧ j < k ∧ k ≤ min m 171 ∧
          p = (500 * k, findSolutions (env.clueAt (500 * k)) sw) ∧
          0 < (findSolutions (env.clueAt (500 * k)) sw).length ∧
          (findSolutions (env.clueAt (500 * k)) sw).length ≤ 7 := by
  intro n
  induction n with
  | zero =>
    intro j cw clue s cg b hn hj hcw p hp
    have hjE : j = min m 171 := by omega
    have hcw2 : cw = env.wordAt (500 * j) := by
      rw [hcw, if_neg (by omega)]
    have hexit : ¬(cw = oldWord ∧ 500 * j ≤ 85000) := by
      rcases Nat.lt_or_ge m 172 with hlt | hge
      · intro hcon
        refine ha (by omega) ?_
        rw [show (500 : Nat) * m = 500 * j by omega, ← hcw2]
        exact hcon.1
      · intro hcon
        exact absurd hcon.2 (by omega)
    rw [waitLoop_exit env sw oldWord (500 * j) cw clue s cg b hexit] at hp
    exact Or.inl hp
  | succ n ih =>
    intro j cw clue s cg b hn hj hcw p hp
    have hjE : j < min m 171 := by omega
    have hcwold : cw = oldWord := by
      rcases Nat.eq_zero_or_pos j with hj0 | hj1
      · subst hj0
        rw [hcw, if_pos rfl]
        exact h0
      · rw [hcw, if_neg (by omega)]
        exact hb j (by omega) hj1
    have htimer : 500 * j ≤ 85000 := by omega
    rw [waitLoop_continue env sw oldWord (500 * j) cw clue s cg b hcwold htimer,
      show (500 : Nat) * j + 500 = 500 * (j + 1) by ring] at hp
    have hcw2 : env.wordAt (500 * (j + 1)) =
        (if j + 1 = 0 then env.word0 else env.wordAt (500 * (j + 1))) := by simp
    have hih := ih (j + 1) (env.wordAt (500 * (j + 1))) clue
      (clueStep env sw clue s b (500 * (j + 1))).1
      (if env.wordAt (500 * (j + 1)) = oldWord then (env.guessedAt (500 * (j + 1)) : Int)
        else cg)
      (clueStep env sw clue s b (500 * (j + 1))).2
      (by omega) (by omega) hcw2 p hp
    rcases hih with hmem | ⟨k, hk4, hkj, hkE, hpk, hs1, hs2⟩
    · rcases clueStep_cases env sw clue s b (500 * (j + 1)) with hcs | ⟨_, hmod, _, hl1, hl2, hcs⟩
      · rw [hcs] at hmem
        exact Or.inl hmem
      · rw [hcs] at hmem
        rcases List.mem_append.mp hmem with hmem2 | hmem2
        · exact Or.inl hmem2
        · rw [List.mem_singleton] at hmem2
          exact Or.inr ⟨j + 1, by omega, by omega, by omega, hmem2, hl1, hl2⟩
    · exact Or.inr ⟨k, hk4, by omega, hkE, hpk, hs1, hs2⟩

/-- If some clue tick inside the guessing window resolves to 1-7
candidates, a batch is started (assuming the dictionary cannot resolve
an empty clue, i.e. it has no zero-letter bucket entry list for the
empty shape). -/
theorem waitLoop_trigger (env : RoundEnv) (sw : SortedWords) (oldWord : String)
    (m : Nat) (hm : 1 ≤ m) (h0 : env.word0 = oldWord)
    (hb : ∀ k, k < m → 1 ≤ k → env.wordAt (500 * k) = oldWord)
    (_ha : m ≤ 171 → env.wordAt (500 * m) ≠ oldWord)
    (hEmpty : findSolutions [] sw = []) :
    ∀ n j cw s cg b, n = min m 171 - j → j ≤ min m 171 →
      cw = (if j = 0 then env.word0 else env.wordAt (500 * j)) →
      (s = false ∨ b ≠ []) →
      (∃ k, k % 4 = 0 ∧ j < k ∧ k ≤ min m 171 ∧
        0 < (findSolutions (env.clueAt (500 * k)) sw).length ∧
        (findSolutions (env.clueAt (500 * k)) sw).length ≤ 7) →
      (waitLoop env sw oldWord (500 * j) cw [] s cg b).batches ≠ [] := by
  intro n
  induction n with
  | zero =>
    intro j cw s cg b hn hj hcw hsb ⟨k, hk4, hkj, hkE, hs1, hs2⟩
    omega
  | succ n ih =>
    intro j cw s cg b hn hj hcw hsb hex
    by_cases hbne : b ≠ []
    · obtain ⟨t, ht⟩ := waitLoop_batches_extend env sw oldWord (85500 - 500 * j) (500 * j)
        cw [] s cg b rfl
      rw [ht]
      simp [hbne]
    · push_neg at hbne
      subst hbne
      have hs : s = false := by
        rcases hsb with hs | hb2
        · exact hs
        · exact absurd rfl hb2
      subst hs
      obtain ⟨k, hk4, hkj, hkE, hl1, hl2⟩ := hex
      have hjE : j < min m 171 := by omega
      have hcwold : cw = oldWord := by
        rcases Nat.eq_zero_or_pos j with hj0 | hj1
        · subst hj0
          rw [hcw, if_pos rfl]
          exact h0
        · rw [hcw, if_neg (by omega)]
          exact hb j (by omega) hj1
      have htimer : 500 * j ≤ 85000 := by omega
      rw [waitLoop_continue env sw oldWord (500 * j) cw [] false cg [] hcwold htimer,
        show (500 : Nat) * j + 500 = 500 * (j + 1) by ring]
      have hcw2 : env.wordAt (500 * (j + 1)) =
          (if j + 1 = 0 then env.word0 else env.wordAt (500 * (j + 1))) := by simp
      by_cases hkj1 : k = j + 1
      · rw [hkj1] at hk4 hl1 hl2
        have hclue : ([] : List Char) ≠ env.clueAt (500 * (j + 1)) := by
          intro hnil
          rw [← hnil, hEmpty] at hl1
          simp at hl1
        have hcs := clueStep_fires env sw [] false [] (500 * (j + 1)) (by omega) hclue rfl
          ⟨hl1, hl2⟩
        rw [hcs]
        obtain ⟨t, ht⟩ := waitLoop_batches_extend env sw oldWord (85500 - 500 * (j + 1))
          (500 * (j + 1)) (env.wordAt (500 * (j + 1))) []
          (true, ([] : List (Nat × List WordEntry)) ++
            [(500 * (j + 1), findSolutions (env.clueAt (500 * (j + 1))) sw)]).1
          (if env.wordAt (500 * (j + 1)) = oldWord then (env.guessedAt (500 * (j + 1)) : Int)
            else cg)
          (true, ([] : List (Nat × List WordEntry)) ++
            [(500 * (j + 1), findSolutions (env.clueAt (500 * (j + 1))) sw)]).2 rfl
        rw [ht]
        simp
      · rcases clueStep_cases env sw [] false [] (500 * (j + 1)) with hcs | ⟨_, _, _, _, _, hcs⟩
        · rw [hcs]
          exact ih (j + 1) (env.wordAt (500 * (j + 1))) false _ [] (by omega) (by omega) hcw2
            (Or.inl rfl) ⟨k, hk4, by omega, hkE, hl1, hl2⟩
        · rw [hcs]
          exact ih (j + 1) (env.wordAt (500 * (j + 1))) true _
            (([] : List (Nat × List WordEntry)) ++
              [(500 * (j + 1), findSolutions (env.clueAt (500 * (j + 1))) sw)])
            (by omega) (by omega) hcw2 (Or.inr (by simp))
            ⟨k, hk4, by omega, hkE, hl1, hl2⟩

/-- A round wait that never sees the reveal text change runs the loop
to timer 85500 and throws. -/
theorem once_timeout (env : RoundEnv) (sw : SortedWords) (oldWord : String) (cg0 : Int)
    (h0 : env.word0 = oldWord)
    (hall : ∀ k, 1 ≤ k → env.wordAt (500 * k) = oldWord) :
    waitForRoundFinishedOnce env sw oldWord cg0 = .error .timedout := by
  have hA := waitLoop_resolve env sw oldWord 172 (by omega) h0
    (fun k _ hk1 => hall k hk1) (fun h => absurd h (by omega)) 171 0 env.word0 [] false cg0 []
    (by omega) (by omega) (by simp)
  rw [waitForRoundFinishedOnce]
  have ht : (waitLoop env sw oldWord 0 env.word0 [] false cg0 []).timer = 85500 := by
    have := hA.1
    norm_num at this
    exact this
  simp only [ht]
  rw [if_pos (by omega)]

/-- The trajectory lemma instantiated at the loop's actual entry
state. -/
theorem waitLoop_resolve_zero (env : RoundEnv) (sw : SortedWords) (oldWord : String)
    (cg0 : Int) (m : Nat) (hm : 1 ≤ m) (h0 : env.word0 = oldWord)
    (hb : ∀ k, k < m → 1 ≤ k → env.wordAt (500 * k) = oldWord)
    (ha : m ≤ 171 → env.wordAt (500 * m) ≠ oldWord) :
    (waitLoop env sw oldWord 0 env.word0 [] false cg0 []).timer = 500 * min m 171 ∧
      (waitLoop env sw oldWord 0 env.word0 [] false cg0 []).currentWord =
        env.wordAt (500 * min m 171) ∧
      (waitLoop env sw oldWord 0 env.word0 [] false cg0 []).correctGuesses =
        (if 1 < m then (env.guessedAt (500 * min (m - 1) 171) : Int)
          else cg0) := by
  have hA := waitLoop_resolve env sw oldWord m hm h0 hb ha (min m 171 - 0) 0 env.word0 []
    false cg0 [] rfl (by omega) (by simp)
  norm_num at hA
  exact hA

/-- C8: a round wait that never observes the reveal text change within
the 85-second window throws the timeout error, and the orchestrator's
`addWord` is never reached, leaving the word bank unchanged. -/
theorem c8_timeout_leaves_bank (env : RoundEnv) (rest : List RoundEnv) (sw : SortedWords)
    (oldWord : String) (cg0 : Int) (bank : String → Option WordRec)
    (h0 : env.word0 = oldWord)
    (hall : ∀ k, 1 ≤ k → env.wordAt (500 * k) = oldWord) :
    waitForRoundFinishedMany (env :: rest) sw oldWord cg0 = .error .timedout ∧
      runRound (env :: rest) sw oldWord cg0 bank = (bank, .error .timedout) := by
  have h1 := once_timeout env sw oldWord cg0 h0 hall
  constructor
  · rw [waitForRoundFinishedMany, h1]
  · rw [runRound, waitForRoundFinishedMany, h1]

/-- C8 witness: an environment that always reads back `a`. -/
theorem c8_timeout_leaves_bank_witness :
    waitForRoundFinishedMany [⟨"a", fun _ => "a", fun _ => [], fun _ => 0, 5⟩] [] "a" 0 =
        .error .timedout ∧
      runRound [⟨"a", fun _ => "a", fun _ => [], fun _ => 0, 5⟩] [] "a" 0 (fun _ => none) =
        (fun _ => none, .error .timedout) :=
  c8_timeout_leaves_bank ⟨"a", fun _ => "a", fun _ => [], fun _ => 0, 5⟩ [] [] "a" 0
    (fun _ => none) rfl (fun _ _ => rfl)

/-- C9: when a round resolves (reveal text first changes at tick `m`
inside the timeout window), the exposed player count is the observed
player-element count minus two, and the exposed correct-guess count is
the guessed-count snapshot from the last pre-resolution tick,
decremented by exactly one if and only if an auto-submission batch
occurred during the round. -/
theorem c9_resolution_snapshot (env : RoundEnv) (sw : SortedWords) (oldWord : String)
    (cg0 : Int) (m : Nat) (hm2 : 2 ≤ m) (hm170 : m ≤ 170)
    (h0 : env.word0 = oldWord)
    (hb : ∀ k, k < m → 1 ≤ k → env.wordAt (500 * k) = oldWord)
    (ha : env.wordAt (500 * m) ≠ oldWord) :
    ∃ out, waitForRoundFinishedOnce env sw oldWord cg0 = .ok out ∧
      out.playerCount = (env.playersAfter : Int) - 2 ∧
      out.correctGusses =
        (if out.submitted then (env.guessedAt (500 * (m - 1)) : Int) - 1
          else (env.guessedAt (500 * (m - 1)) : Int)) := by
  have hA := waitLoop_resolve_zero env sw oldWord cg0 m (by omega) h0 hb (fun _ => ha)
  rw [show min m 171 = m by omega, show min (m - 1) 171 = m - 1 by omega,
    if_pos (show 1 < m by omega)] at hA
  simp only [waitForRoundFinishedOnce]
  rw [if_neg (show ¬(85000 <
    (waitLoop env sw oldWord 0 env.word0 [] false cg0 []).timer) by rw [hA.1]; omega)]
  refine ⟨_, rfl, rfl, ?_⟩
  simp only [hA.2.2]

/-- C9 witness: resolution at tick 2 with a guessed-count reading of 3
at tick 1 and six player elements. -/
theorem c9_resolution_snapshot_witness :
    ∃ out, waitForRoundFinishedOnce
        ⟨"a", fun t => if t < 1000 then "a" else "b", fun _ => [], fun _ => 3, 6⟩ [] "a" 0 =
          .ok out ∧
      out.playerCount = ((6 : Nat) : Int) - 2 ∧
      out.correctGusses = (if out.submitted then ((3 : Nat) : Int) - 1 else ((3 : Nat) : Int)) :=
  c9_resolution_snapshot ⟨"a", fun t => if t < 1000 then "a" else "b", fun _ => [], fun _ => 3, 6⟩
    [] "a" 0 2 (by omega) (by omega) rfl (by decide) (by decide)

/-- C2: within one round's guessing window (reveal text first changes
at tick `m`, or never when `m ≥ 172`), at most one auto-submission
batch is ever started; every started batch records a clue tick inside
the window whose resolved candidate list had between 1 and 7 entries
(never 0 or 8); and if any clue tick inside the window resolves to 1-7
candidates then a batch is started. (`hEmpty` says the dictionary
cannot resolve the empty clue: there is no zero-letter bucket.) -/
theorem c2_batch_window (env : RoundEnv) (sw : SortedWords) (oldWord : String) (cg0 : Int)
    (m : Nat) (hm : 1 ≤ m) (h0 : env.word0 = oldWord)
    (hb : ∀ k, k < m → 1 ≤ k → env.wordAt (500 * k) = oldWord)
    (ha : m ≤ 171 → env.wordAt (500 * m) ≠ oldWord)
    (hEmpty : findSolutions [] sw = []) :
    ((waitLoop env sw oldWord 0 env.word0 [] false cg0 []).batches).length ≤ 1 ∧
      (∀ p ∈ (waitLoop env sw oldWord 0 env.word0 [] false cg0 []).batches,
        ∃ k, k % 4 = 0 ∧ 1 ≤ k ∧ k ≤ min m 171 ∧
          p = (500 * k, findSolutions (env.clueAt (500 * k)) sw) ∧
          0 < (findSolutions (env.clueAt (500 * k)) sw).length ∧
          (findSolutions (env.clueAt (500 * k)) sw).length ≤ 7) ∧
      ((∃ k, k % 4 = 0 ∧ 1 ≤ k ∧ k ≤ min m 171 ∧
          0 < (findSolutions (env.clueAt (500 * k)) sw).length ∧
          (findSolutions (env.clueAt (500 * k)) sw).length ≤ 7) →
        (waitLoop env sw oldWord 0 env.word0 [] false cg0 []).batches ≠ []) := by
  refine ⟨?_, ?_, ?_⟩
  · have hc := waitLoop_batches_count env sw oldWord (85500 - 0) 0 env.word0 [] false cg0 []
      rfl
    simpa using hc
  · have hmem := waitLoop_batches_mem env sw oldWord m hm h0 hb ha (min m 171 - 0) 0
      env.word0 [] false cg0 [] (by omega) (by omega) (by simp)
    intro p hp
    rcases hmem p hp with hnil | ⟨k, hk4, hk1, hkE, hpk, hl1, hl7⟩
    · exact absurd hnil (List.not_mem_nil p)
    · exact ⟨k, hk4, hk1, hkE, hpk, hl1, hl7⟩
  · intro ⟨k, hk4, hk1, hkE, hl1, hl7⟩
    have htr := waitLoop_trigger env sw oldWord m hm h0 hb ha hEmpty (min m 171 - 0) 0
      env.word0 false cg0 [] (by omega) (by omega) (by simp) (Or.inl rfl)
      ⟨k, hk4, hk1, hkE, hl1, hl7⟩
    exact htr

/-- C2 witness: a round resolving at the very first tick, so the
window holds no clue tick and no batch is ever started. -/
theorem c2_batch_window_witness :
    ((waitLoop ⟨"a", fun _ => "b", fun _ => [], fun _ => 0, 5⟩ [] "a" 0 "a" [] false 0
        []).batches).length ≤ 1 ∧
      (∀ p ∈ (waitLoop ⟨"a", fun _ => "b", fun _ => [], fun _ => 0, 5⟩ [] "a" 0 "a" []
          false 0 []).batches,
        ∃ k, k % 4 = 0 ∧ 1 ≤ k ∧ k ≤ min 1 171 ∧
          p = (500 * k, findSolutions ((fun _ => ([] : List Char)) (500 * k)) []) ∧
          0 < (findSolutions ((fun _ => ([] : List Char)) (500 * k)) []).length ∧
          (findSolutions ((fun _ => ([] : List Char)) (500 * k)) []).length ≤ 7) ∧
      ((∃ k, k % 4 = 0 ∧ 1 ≤ k ∧ k ≤ min 1 171 ∧
          0 < (findSolutions ((fun _ => ([] : List Char)) (500 * k)) []).length ∧
          (findSolutions ((fun _ => ([] : List Char)) (500 * k)) []).length ≤ 7) →
        (waitLoop ⟨"a", fun _ => "b", fun _ => [], fun _ => 0, 5⟩ [] "a" 0 "a" [] false 0
          []).batches ≠ []) :=
  c2_batch_window ⟨"a", fun _ => "b", fun _ => [], fun _ => 0, 5⟩ [] "a" 0 1 (by omega)
    rfl (by decide) (fun _ => by decide) rfl

/-- C10: when an auto-submission batch occurred in a round (some clue
tick in the window resolved to 1-7 candidates) and the last observed
guessed-player count was zero, the exposed correct-guess count is -1,
and the orchestrator's subsequent `addWord` call is rejected by the
negative-count guard, so the revealed word is silently never
recorded. -/
theorem c10_zero_guessed_drops_word (env : RoundEnv) (sw : SortedWords) (oldWord : String)
    (cg0 : Int) (m k : Nat) (hm2 : 2 ≤ m) (hm170 : m ≤ 170)
    (h0 : env.word0 = oldWord)
    (hb : ∀ k2, k2 < m → 1 ≤ k2 → env.wordAt (500 * k2) = oldWord)
    (ha : env.wordAt (500 * m) ≠ oldWord)
    (hguess : env.guessedAt (500 * (m - 1)) = 0)
    (hEmpty : findSolutions [] sw = [])
    (hk4 : k % 4 = 0) (hk1 : 1 ≤ k) (hkm : k ≤ m)
    (hsol1 : 0 < (findSolutions (env.clueAt (500 * k)) sw).length)
    (hsol7 : (findSolutions (env.clueAt (500 * k)) sw).length ≤ 7) :
    ∃ out, waitForRoundFinishedOnce env sw oldWord cg0 = .ok out ∧
      out.submitted = true ∧ out.correctGusses = -1 ∧
      (∀ (bank : String → Option WordRec) (w : String) (np : Int),
        addWord bank w np out.correctGusses = bank) := by
  have hA := waitLoop_resolve_zero env sw oldWord cg0 m (by omega) h0 hb (fun _ => ha)
  rw [show min m 171 = m by omega, show min (m - 1) 171 = m - 1 by omega,
    if_pos (show 1 < m by omega), hguess] at hA
  have htr := waitLoop_trigger env sw oldWord m (by omega) h0 hb (fun _ => ha) hEmpty
    (min m 171 - 0) 0 env.word0 false cg0 [] (by omega) (by omega) (by simp) (Or.inl rfl)
    ⟨k, hk4, hk1, by omega, hsol1, hsol7⟩
  have hsub := (waitLoop_submitted_iff env sw oldWord (85500 - 0) 0 env.word0 [] false cg0
    [] rfl (by simp)).mpr htr
  simp only [waitForRoundFinishedOnce]
  rw [if_neg (show ¬(85000 <
    (waitLoop env sw oldWord 0 env.word0 [] false cg0 []).timer) by rw [hA.1]; omega)]
  refine ⟨_, rfl, hsub, ?_, ?_⟩
  · simp only [hsub, if_true, hA.2.2]
    rfl
  · intro bank w np
    apply addWord_rejected
    refine Or.inr (Or.inl ?_)
    simp only [hsub, if_true, hA.2.2]
    omega

/-- C10 witness: resolution at tick 5, batch fired at the clue tick 4
(clue `c__` over the cat/car/dog bucket), zero guessed players
observed throughout. -/
theorem c10_zero_guessed_drops_word_witness :
    ∃ out, waitForRoundFinishedOnce
        ⟨"a", fun t => if t < 2500 then "a" else "b",
          fun t => if t = 2000 then "c__".toList else [], fun _ => 0, 4⟩
        [(1, [(3, [⟨"cat", [3], "cat".toList⟩, ⟨"car", [3], "car".toList⟩,
          ⟨"dog", [3], "dog".toList⟩])])] "a" 0 = .ok out ∧
      out.submitted = true ∧ out.correctGusses = -1 ∧
      (∀ (bank : String → Option WordRec) (w : String) (np : Int),
        addWord bank w np out.correctGusses = bank) :=
  c10_zero_guessed_drops_word
    ⟨"a", fun t => if t < 2500 then "a" else "b",
      fun t => if t = 2000 then "c__".toList else [], fun _ => 0, 4⟩
    [(1, [(3, [⟨"cat", [3], "cat".toList⟩, ⟨"car", [3], "car".toList⟩,
      ⟨"dog", [3], "dog".toList⟩])])] "a" 0 5 4
    (by omega) (by omega) rfl (by decide) (by decide) rfl rfl (by decide) (by decide)
    (by omega)
    (by rw [findSolutions_eq_filter]; decide)
    (by rw [findSolutions_eq_filter]; decide)

theorem numWordsOf_set (clue : List Char) (i : Nat) (c : Char)
    (hi : clue.get? i = some '_') (hc : (c == ' ') = false) :
    numWordsOf (clue.set i c) = numWordsOf clue := by
  rw [numWordsOf, numWordsOf, ← List.length_map _ List.length,
    ← List.length_map (jsSplit _ clue) List.length,
    jsSplit_set_shape _ clue '_' c (by decide) hc i hi]

theorem lensOf_set (clue : List Char) (i : Nat) (c : Char)
    (hi : clue.get? i = some '_') (hc : isSepRe c = false) :
    lensOf (clue.set i c) = lensOf clue := by
  rw [lensOf, lensOf, jsSplit_set_shape isSepRe clue '_' c (by decide) hc i hi]

theorem flatOf_set (clue : List Char) (i : Nat) (c : Char)
    (hi : clue.get? i = some '_') (hc : isSepRe c = false) :
    flatOf (clue.set i c) = (flatOf clue).set (flatIdx clue i) c := by
  rw [flatOf, flatOf, flatIdx, stripSeps_eq_filter, stripSeps_eq_filter, stripSeps_eq_filter]
  exact filter_set_of_keep _ clue i '_' c hi (by decide) (keep_of_not_sep c hc)

theorem flatOf_get_at (clue : List Char) (i : Nat)
    (hi : clue.get? i = some '_') :
    (flatOf clue).get? (flatIdx clue i) = some '_' := by
  rw [flatOf, flatIdx, stripSeps_eq_filter, stripSeps_eq_filter]
  exact get?_filter_at _ clue i '_' hi (by decide)

theorem matchesCSFrom_set (flat : List Char) (p : Nat) (c : Char) (g : WordEntry)
    (hp : flat.get? p = some '_') (hc : c ≠ '_') :
    matchesCSFrom (flat.set p c) 0 g = true ↔
      (matchesCSFrom flat 0 g = true ∧ g.letters.get? p = some c) := by
  have hplen : p < flat.length := get?_lt_of_eq_some flat p '_' hp
  rw [matchesCSFrom_iff, matchesCSFrom_iff]
  constructor
  · intro h
    constructor
    · intro j d hj hd
      by_cases hjp : j = p
      · subst hjp
        rw [hp] at hj
        injection hj with hj
        exact absurd hj.symm hd
      · exact h j d (by rw [get?_set_ne flat p j c (fun h2 => hjp h2.symm)]; exact hj) hd
    · have := h p c (by rw [get?_set_self flat p c hplen]) hc
      simpa using this
  · rintro ⟨h1, h2⟩ j d hj hd
    by_cases hjp : j = p
    · subst hjp
      rw [get?_set_self flat j c hplen] at hj
      injection hj with hj
      subst hj
      simpa using h2
    · rw [get?_set_ne flat p j c (fun h2 => hjp h2.symm)] at hj
      exact h1 j d hj hd

theorem flat_length_countP (l : List Char) (hws : ∀ c ∈ l, isJsWs c = true → c = ' ') :
    (flatOf l).length = l.countP (fun c => !(isSepRe c)) := by
  rw [flatOf, stripSeps_eq_filter, ← List.countP_eq_length_filter]
  induction l with
  | nil => rfl
  | cons a t ih =>
    have ht := ih (fun c hc => hws c (List.mem_cons_of_mem a hc))
    rw [List.countP_cons, List.countP_cons, ht]
    have ha := hws a (List.mem_cons_self a t)
    by_cases h1 : a = ' '
    · subst h1; simp [isSepRe, isJsWs]
    · by_cases h2 : a = '-'
      · subst h2; simp [isSepRe, isJsWs]
      · have hws2 : isJsWs a = false := by
          by_cases h3 : isJsWs a = true
          · exact absurd (ha h3) h1
          · simpa using h3
        simp [isSepRe, hws2, bne, h1, h2]

theorem lensOf_sum (l : List Char) : (lensOf l).sum = l.countP (fun c => !(isSepRe c)) := by
  rw [lensOf]
  exact jsSplit_sum isSepRe l

/-- C1: revealing one placeholder of the clue as the target word's
letter at the corresponding flattened position (a letter, i.e. neither
a placeholder nor a separator character) can only shrink the resolver's
candidate list, and the target is never eliminated by the extra
revealed letter. -/
theorem c1_reveal_monotone (clue : List Char) (sw : SortedWords) (i : Nat)
    (target : WordEntry) (c : Char)
    (hi : clue.get? i = some '_')
    (hc : target.letters.get? (flatIdx clue i) = some c)
    (hcu : c ≠ '_') (hcs : isSepRe c = false) :
    (findSolutions (clue.set i c) sw).length ≤ (findSolutions clue sw).length ∧
      (target ∈ findSolutions clue sw → target ∈ findSolutions (clue.set i c) sw) := by
  have hnw := numWordsOf_set clue i c hi
    (by
      have hkeep := keep_of_not_sep c hcs
      simp only [Bool.and_eq_true, bne_iff_ne] at hkeep
      exact beq_eq_false_iff_ne.mpr hkeep.1)
  have hlens := lensOf_set clue i c hi hcs
  have hflat := flatOf_set clue i c hi hcs
  have hflatlen : (flatOf (clue.set i c)).length = (flatOf clue).length := by
    rw [hflat, List.length_set]
  have hbucket : bucketOf (clue.set i c) sw = bucketOf clue sw := by
    rw [bucketOf, bucketOf, hnw, hflatlen]
  have hpfl := flatOf_get_at clue i hi
  rw [findSolutions_eq_filter (clue.set i c) sw, findSolutions_eq_filter clue sw,
    hbucket, hlens, hflat]
  cases hb : bucketOf clue sw with
  | none => simp
  | some gs =>
    simp only
    constructor
    · apply filter_length_mono
      intro g hg
      exact ((matchesCSFrom_set (flatOf clue) (flatIdx clue i) c g hpfl hcu).mp hg).1
    · intro hmem
      rw [List.mem_filter] at hmem ⊢
      exact ⟨hmem.1,
        (matchesCSFrom_set (flatOf clue) (flatIdx clue i) c target hpfl hcu).mpr
          ⟨hmem.2, hc⟩⟩

/-- C1 witness: the `c__` scenario with target `cat`, revealing
position 1 to get `ca_`. -/
theorem c1_reveal_monotone_witness :
    (findSolutions ("c__".toList.set 1 'a')
        [(1, [(3, [⟨"cat", [3], "cat".toList⟩, ⟨"car", [3], "car".toList⟩,
          ⟨"dog", [3], "dog".toList⟩])])]).length ≤
      (findSolutions "c__".toList
        [(1, [(3, [⟨"cat", [3], "cat".toList⟩, ⟨"car", [3], "car".toList⟩,
          ⟨"dog", [3], "dog".toList⟩])])]).length ∧
    (⟨"cat", [3], "cat".toList⟩ ∈ findSolutions "c__".toList
        [(1, [(3, [⟨"cat", [3], "cat".toList⟩, ⟨"car", [3], "car".toList⟩,
          ⟨"dog", [3], "dog".toList⟩])])] →
      (⟨"cat", [3], "cat".toList⟩ : WordEntry) ∈ findSolutions ("c__".toList.set 1 'a')
        [(1, [(3, [⟨"cat", [3], "cat".toList⟩, ⟨"car", [3], "car".toList⟩,
          ⟨"dog", [3], "dog".toList⟩])])]) :=
  c1_reveal_monotone "c__".toList
    [(1, [(3, [⟨"cat", [3], "cat".toList⟩, ⟨"car", [3], "car".toList⟩,
      ⟨"dog", [3], "dog".toList⟩])])] 1 ⟨"cat", [3], "cat".toList⟩ 'a'
    (by decide) (by decide) (by decide) (by decide)

/-- C5 (amended): under the dictionary-shape invariant, for a clue all
of whose space/hyphen tokens are nonempty (and with only plain spaces
as whitespace), every candidate the resolver returns has a per-sub-word
length sequence exactly equal to the clue's token lengths. (The
original claim fails when the clue has a zero-length token, e.g. a
trailing hyphen; see the counterexample.) -/
theorem c5_multiword_shape (clue : List Char) (sw : SortedWords)
    (hWF : IndexWF sw)
    (hws : ∀ c ∈ clue, isJsWs c = true → c = ' ')
    (htok : ∀ t ∈ jsSplit isSepRe clue, t ≠ [])
    (_hmulti : 1 < (jsSplit isSepRe clue).length) :
    ∀ g ∈ findSolutions clue sw, g.lens = lensOf clue := by
  intro g hg
  rw [findSolutions_eq_filter] at hg
  cases hb : bucketOf clue sw with
  | none => rw [hb] at hg; simp at hg
  | some gs =>
    rw [hb] at hg
    rw [List.mem_filter] at hg
    obtain ⟨hg2, _⟩ := hg
    rw [List.mem_filter] at hg2
    obtain ⟨hgs, hshape⟩ := hg2
    rw [bucketOf] at hb
    cases e1 : sw.lookup (numWordsOf clue) with
    | none => rw [e1] at hb; simp at hb
    | some inner =>
      rw [e1] at hb
      simp only [Option.some_bind] at hb
      have h1 := lookup_mem sw _ _ e1
      have h2 := lookup_mem inner _ _ hb
      have hWFg := hWF _ h1 _ h2 g hgs
      obtain ⟨t, hbt⟩ := (lensEvery_iff g.lens (lensOf clue)).mp hshape
      have hsum : (lensOf clue).sum = (flatOf clue).length := by
        rw [lensOf_sum, flat_length_countP clue hws]
      have hsumt : g.lens.sum + t.sum = (lensOf clue).sum := by
        rw [hbt, List.sum_append]
      have ht0 : t.sum = 0 := by
        have := hWFg.2
        omega
      have hpos : ∀ x ∈ lensOf clue, 0 < x := by
        intro x hx
        rw [lensOf] at hx
        obtain ⟨tok, htok2, rfl⟩ := List.mem_map.mp hx
        exact List.length_pos.mpr (htok tok htok2)
      have htnil : t = [] := by
        cases t with
        | nil => rfl
        | cons x xs =>
          have hx : x ∈ lensOf clue := by
            rw [hbt]
            exact List.mem_append_right _ (List.mem_cons_self x xs)
          have hxpos := hpos x hx
          have hxle : x ≤ (x :: xs).sum :=
            List.single_le_sum (fun y _ => Nat.zero_le y) x (List.mem_cons_self x xs)
          omega
      rw [hbt, htnil, List.append_nil]

/-- C5 witness: the amended statement applied to the clue `___ _____`
over the bucket `(2, 8)` holding a `[3, 5]` entry, which the resolver
returns, so its length sequence equals the clue's token lengths. -/
theorem c5_multiword_shape_witness :
    e35.lens = lensOf "___ _____".toList :=
  c5_multiword_shape "___ _____".toList [(2, [(8, [e35])])]
    (by unfold IndexWF; decide) (by decide) (by decide) (by decide) e35
    (by rw [findSolutions_eq_filter]; decide)

/-- C9 counterexample: when the reveal text changes before the loop
ever refreshes the correct-guess field (resolution at the first poll
tick), `waitForRoundFinished` exposes the stale entry value of the
mutable `#correctGuesses` field (here 7) with no batch decrement, even
though every guessed-count reading of the current room state is 5: the
exposed correct-guess count is not snapshotted from the current room
state, refuting the claim as stated at this concrete input. -/
theorem c9_counterexample :
    waitForRoundFinishedOnce envC9x [] "a" 7 = .ok ⟨"b", 4, 7, false, []⟩ ∧
      envC9x.guessedAt 500 = 5 ∧ ((7 : Int) ≠ 5) := by
  refine ⟨?_, rfl, by decide⟩
  have hwl : waitLoop envC9x [] "a" 0 envC9x.word0 [] false 7 [] =
      ⟨500, "b", false, 7, []⟩ := by
    rw [waitLoop_continue envC9x [] "a" 0 envC9x.word0 [] false 7 [] rfl (by omega)]
    rw [waitLoop_exit]
    · rfl
    · decide
  simp only [waitForRoundFinishedOnce]
  rw [hwl]
  norm_num [envC9x]
